import Mathlib

/-!
# Verification of the Soong module-graph core against its specification

This development shallowly embeds the algorithms of the build-configuration
compiler (property merge, conditional selection, visibility, namespaces,
variant splitting, defaults cycle checking, pipeline determinism, and the
bp2build conversion predicates) and proves the specified properties about
them.
-/

namespace Soong

/-! ## bp2build conversion configuration (android/bazel.go) -/

/-- `BazelConversionConfigEntry` from android/bazel.go.  The Go map returns
the zero value `0` for missing keys, modelled by the extra `unset`
constructor; `iota + 1` makes the three real entries distinct from it. -/
inductive BazelConversionConfigEntry where
  | unset
  | bp2BuildDefaultTrueRecursively
  | bp2BuildDefaultTrue
  | bp2BuildDefaultFalse
deriving DecidableEq, Repr

/-- `Bp2BuildConfig` from android/bazel.go: a map from package path to
conversion default, with Go's zero-value-on-missing-key read semantics. -/
def Bp2BuildConfig : Type := String → BazelConversionConfigEntry

/-- Splitting a character list at every `'/'`, the semantics of Go's
`strings.Split(s, "/")` restricted to the one-character separator used by
android/bazel.go: `n` separators yield `n+1` (possibly empty) pieces, and
the empty string yields the single piece `""`. -/
def splitSlashChars : List Char → List (List Char)
  | [] => [[]]
  | c :: rest =>
    if c = '/' then [] :: splitSlashChars rest
    else
      match splitSlashChars rest with
      | h :: t => (c :: h) :: t
      | [] => [[c]]

/-- `strings.Split(packagePath, "/")` as used by
`bp2buildDefaultTrueRecursively` (android/bazel.go). -/
def splitOnSlash (s : String) : List String :=
  (splitSlashChars s.toList).map String.mk

/-- The prefix-scanning loop of `bp2buildDefaultTrueRecursively`
(android/bazel.go): walk the components of the package path accumulating
`packagePrefix`, returning true as soon as the accumulated prefix is mapped
to `Bp2BuildDefaultTrueRecursively`. -/
def checkPrefixes (config : Bp2BuildConfig) : String → List String → Bool
  | _, [] => false
  | acc, part :: rest =>
    if config (acc ++ part) = .bp2BuildDefaultTrueRecursively then true
    else checkPrefixes config (acc ++ part ++ "/") rest

/-- `bp2buildDefaultTrueRecursively` from android/bazel.go. -/
def bp2buildDefaultTrueRecursively (packagePath : String) (config : Bp2BuildConfig) : Bool :=
  if config packagePath = .bp2BuildDefaultTrue ∨
      config packagePath = .bp2BuildDefaultTrueRecursively then
    true
  else if config packagePath = .bp2BuildDefaultFalse then
    false
  else
    checkPrefixes config "" (splitOnSlash packagePath)

/-- Joining path components with `"/"`, the inverse of `splitOnSlash`; used
to state which accumulated `packagePrefix` values the scanning loop of
`bp2buildDefaultTrueRecursively` looks up. -/
def joinSlash : List String → String
  | [] => ""
  | [s] => s
  | s :: rest => s ++ "/" ++ joinSlash rest

/-- A concrete `Bp2BuildConfig` used to instantiate theorems: the subtree
rooted at `"x"` converts by default, `"a/b"` is marked non-recursively, and
`"d"` is denied exactly. -/
def configExample : Bp2BuildConfig := fun q =>
  if q = "x" then .bp2BuildDefaultTrueRecursively
  else if q = "a/b" then .bp2BuildDefaultTrue
  else if q = "d" then .bp2BuildDefaultFalse
  else .unset

/-- `bp2buildModuleDoNotConvertList` from android/bazel.go: the per-module
denylist that always opts modules out of both bp2build and mixed builds. -/
def bp2buildModuleDoNotConvertList : List String := [
  "libnativehelper_compat_libc",
  "libart", "libart-runtime-gtest", "libart_headers", "libartd",
  "libartd-runtime-gtest", "libstatslog_art", "statslog_art.h", "statslog_art.cpp",
  "libandroid_runtime_lazy", "libcmd",
  "libdexfile_support_static",
  "libunwindstack_local", "libunwindstack_utils", "libc_malloc_debug", "libfdtrack",
  "libdexfile_support", "libdexfile_external_headers",
  "libunwindstack", "libnativehelper_compat_libc++",
  "chkcon", "sefcontext_compile",
  "libsepol",
  "gen-kotlin-build-file.py",
  "libactivitymanager_aidl",
  "libnativehelper_lazy_mts_jni", "libnativehelper_mts_jni",
  "libnativetesthelper_jni", "libgmock_main_ndk", "libgmock_ndk",
  "statslog-framework-java-gen", "statslog.cpp", "statslog.h",
  "statslog.rs", "statslog_header.rs",
  "stats-log-api-gen",
  "libstatslog",
  "cmd", "servicedispatcher", "libutilscallstack", "libbacktrace",
  "libdebuggerd_handler", "libdebuggerd_handler_core", "libdebuggerd_handler_fallback",
  "unwind_for_offline", "libdebuggerd", "libdexfile_static",
  "static_crasher",
  "pbtombstone", "crash_dump",
  "libbase_ndk",
  "libprotobuf-internal-protos", "libprotobuf-internal-python-srcs",
  "libprotobuf-java-full", "host-libprotobuf-java-full", "libprotobuf-java-util-full",
  "conscrypt", "conscrypt-for-host",
  "host-libprotobuf-java-lite", "host-libprotobuf-java-micro",
  "host-libprotobuf-java-nano", "error_prone_core", "bouncycastle-host",
  "apex_manifest_proto_java",
  "libc_musl_sysroot_bionic_arch_headers", "libc_musl_sysroot_bionic_headers",
  "libprotobuf-python", "conv_linker_config",
  "apex_build_info_proto", "apex_manifest_proto",
  "linker_config_proto",
  "brotli-fuzzer-corpus",
  "platform_tools_properties", "build_tools_source_properties",
  "com.android.runtime",
  "libgtest_ndk_c++", "libgtest_main_ndk_c++",
  "abb", "adb", "libadb_host", "libfastdeploy_host", "linker",
  "linker_reloc_bench_main", "versioner",
  "linkerconfig", "mdnsd",
  "CarHTMLViewer",
  "libdexfile", "libdexfiled",
  "apex-protos",
  "generated_android_icu4j_src_files", "generated_android_icu4j_test_files",
  "icu4c_test_data",
  "host_bionic_linker_asm", "host_bionic_linker_script",
  "robolectric-sqlite4java-native", "robolectric_tzdata",
  "android_icu4j_srcgen_binary", "core-icu4j-for-host",
  "android_icu4j_srcgen", "bin2c_fastdeployagent", "currysrc",
  "robolectric-sqlite4java-0.282", "timezone-host",
  "truth-host-prebuilt", "truth-prebuilt",
  "generated_android_icu4j_resources", "generated_android_icu4j_test_resources",
  "art-script", "dex2oat-script"]

/-- `bp2buildCcLibraryStaticOnlyList` from android/bazel.go (empty). -/
def bp2buildCcLibraryStaticOnlyList : List String := []

/-- `mixedBuildsDisabledList` from android/bazel.go: the per-module denylist
that opts modules out of mixed builds only. -/
def mixedBuildsDisabledList : List String := [
  "art_libdexfile_dex_instruction_list_header",
  "libbrotli",
  "minijail_constants_json",
  "cap_names.h",
  "libcap",
  "libprotobuf-cpp-full", "libprotobuf-cpp-lite",
  "libadb_pairing_connection",
  "libadb_pairing_connection_static",
  "libadb_pairing_server", "libadb_pairing_server_static"]

/-- The `bp2buildModuleDoNotConvert` lookup map built by `init` in
android/bazel.go from the denylist. -/
def bp2buildModuleDoNotConvert (name : String) : Bool :=
  bp2buildModuleDoNotConvertList.contains name

/-- `GenerateCcLibraryStaticOnly` from android/bazel.go. -/
def GenerateCcLibraryStaticOnly (moduleName : String) : Bool :=
  bp2buildCcLibraryStaticOnlyList.contains moduleName

/-- The `mixedBuildsDisabled` lookup map built by `init` in android/bazel.go. -/
def mixedBuildsDisabled (name : String) : Bool :=
  mixedBuildsDisabledList.contains name

/-- The fields of `bazelModuleProperties` (android/bazel.go) that the
conversion predicates read, together with the mutated `CanConvertToBazel`
marker set by `InitBazelModule`.  `bp2buildAvailable` is the tristate
`Bp2build_available` pointer. -/
structure BazelModuleProps where
  label : Option String
  bp2buildAvailable : Option Bool
  canConvertToBazel : Bool
deriving DecidableEq, Repr

/-- `proptools.BoolDefault`: the value of a tristate bool pointer, or the
given default when unset. -/
def boolDefault (p : Option Bool) (d : Bool) : Bool := p.getD d

/-- `HasHandcraftedLabel` from android/bazel.go. -/
def hasHandcraftedLabel (b : BazelModuleProps) : Bool := b.label.isSome

/-- The context values read by `shouldConvertWithBp2build`
(android/bazel.go): the module's name, its package path
(`ctx.OtherModuleDir`), and `ctx.Config().bp2buildPackageConfig`. -/
structure BazelConversionCtxInfo where
  moduleName : String
  packagePath : String
  bp2buildPackageConfig : Bp2BuildConfig

/-- `shouldConvertWithBp2build` from android/bazel.go. -/
def shouldConvertWithBp2build (b : BazelModuleProps) (ctx : BazelConversionCtxInfo) : Bool :=
  if bp2buildModuleDoNotConvert ctx.moduleName then false
  else if !b.canConvertToBazel then false
  else if bp2buildDefaultTrueRecursively ctx.packagePath ctx.bp2buildPackageConfig then
    boolDefault b.bp2buildAvailable true
  else
    boolDefault b.bp2buildAvailable false

/-- The OS of a module variant, as read from `ctx.Os()`; only the
distinction between `Windows` and the other OS types matters to
`MixedBuildsEnabled`. -/
inductive OsType where
  | windows
  | linux
  | darwin
  | android
deriving DecidableEq, Repr

/-- The context values read by `MixedBuildsEnabled` and `convertedToBazel`
(android/bazel.go): the variant's OS, `Module().Enabled()`,
`Config().BazelContext.BazelEnabled()`, whether the module implements
`Bazelable`, its bazel properties, and the conversion-context values. -/
structure MixedBuildsCtxInfo where
  os : OsType
  moduleEnabled : Bool
  bazelEnabled : Bool
  isBazelable : Bool
  props : BazelModuleProps
  moduleName : String
  packagePath : String
  bp2buildPackageConfig : Bp2BuildConfig

/-- The conversion context embedded in a mixed-builds context. -/
def MixedBuildsCtxInfo.convCtx (m : MixedBuildsCtxInfo) : BazelConversionCtxInfo :=
  ⟨m.moduleName, m.packagePath, m.bp2buildPackageConfig⟩

/-- `convertedToBazel` from android/bazel.go: the module is `Bazelable` and
either converts with bp2build or carries a handcrafted label. -/
def convertedToBazel (m : MixedBuildsCtxInfo) : Bool :=
  m.isBazelable && (shouldConvertWithBp2build m.props m.convCtx || hasHandcraftedLabel m.props)

/-- `MixedBuildsEnabled` from android/bazel.go. -/
def MixedBuildsEnabled (m : MixedBuildsCtxInfo) : Bool :=
  if m.os = .windows then false
  else if !m.moduleEnabled then false
  else if !m.bazelEnabled then false
  else if !convertedToBazel m then false
  else if GenerateCcLibraryStaticOnly m.moduleName then false
  else !mixedBuildsDisabled m.moduleName

/-- A concrete convertible module: no handcrafted label, tristate unset,
registered with `InitBazelModule`. -/
def bazelPropsExample : BazelModuleProps := ⟨none, none, true⟩

/-- A concrete conversion context in the `configExample` subtree that
defaults to conversion. -/
def convCtxExample : BazelConversionCtxInfo := ⟨"mymod", "x/y", configExample⟩

/-- A concrete mixed-builds context for a denylisted module. -/
def mixedCtxExample : MixedBuildsCtxInfo :=
  ⟨.linux, true, true, true, bazelPropsExample, "libcap", "x/y", configExample⟩

/-! ## genrule output files (cc/config/darwin_host.go, `Module.OutputFiles`) -/

/-- An output path of a genrule module; `rel` is the value of its `Rel()`
method, the path relative to the module's generated-files root. -/
structure GPath where
  rel : String
deriving DecidableEq, Repr

/-- `Module.OutputFiles` from cc/config/darwin_host.go, as a function of the
module's collected `outputFiles`: the empty tag returns a copy of the whole
list; a non-empty tag returns the first output whose `Rel()` equals the tag;
otherwise the `unsupported module reference tag` error. -/
def OutputFiles (outputFiles : List GPath) (tag : String) : Except String (List GPath) :=
  if tag = "" then .ok outputFiles
  else
    match outputFiles.find? (fun outputFile => outputFile.rel = tag) with
    | some outputFile => .ok [outputFile]
    | none => .error ("unsupported module reference tag \"" ++ tag ++ "\"")

/-- A concrete genrule output list. -/
def outputFilesExample : List GPath := [⟨"gen/a.h"⟩, ⟨"gen/b.h"⟩]

/-! ## Property model (spec §4.1)

The reflection-driven property append/merge implementation (blueprint
proptools) is not under src/; the following model is built from the spec's
words. -/

/-- Modelled from the spec: a property tree of the Property Model (§3, §4.1)
— the proptools property structs are not under src/.  A field is a scalar
(set or unset; one carrier type stands for all scalar types, whose merge
rule is uniform), an ordered list of strings, or a nested map from field
name to sub-tree. -/
inductive PropTree where
  | scalar : Option String → PropTree
  | list : List String → PropTree
  | node : List (String × PropTree) → PropTree
deriving Repr

/-- Looks up the sub-tree bound to field name `k` in a nested map. -/
def lookupTree (k : String) : List (String × PropTree) → Option PropTree
  | [] => none
  | (k', v) :: rest => if k' = k then some v else lookupTree k rest

/-- Removes every binding of field name `k` from a nested map. -/
def removeKey (k : String) (l : List (String × PropTree)) : List (String × PropTree) :=
  l.filter (fun e => ¬ e.1 = k)

mutual

/-- Modelled from the spec: append/merge of two property trees of the same
schema (§4.1) — the proptools appending implementation is not under src/.
Scalar fields are overwritten by the later tree if set; list fields are
concatenated; nested-map fields are unioned key-wise, recursing into shared
keys; merging two trees of incompatible shapes is a fatal programming
error, modelled as `none`. -/
def mergeTree : PropTree → PropTree → Option PropTree
  | .scalar x, .scalar y => some (.scalar (if y.isSome then y else x))
  | .list xs, .list ys => some (.list (xs ++ ys))
  | .node a, .node b => (mergeEntries a b).map PropTree.node
  | _, _ => none

/-- The key-wise union of two nested maps: shared keys merge recursively in
the first map's position, keys only in the first map keep its value, and
keys only in the second map are appended in order. -/
def mergeEntries : List (String × PropTree) → List (String × PropTree) →
    Option (List (String × PropTree))
  | [], b => some b
  | (k, v) :: rest, b =>
    match lookupTree k b with
    | some w =>
      match mergeTree v w, mergeEntries rest (removeKey k b) with
      | some mv, some mrest => some ((k, mv) :: mrest)
      | _, _ => none
    | none =>
      match mergeEntries rest b with
      | some mrest => some ((k, v) :: mrest)
      | none => none

end

/-- Modelled from the spec: a conditional-selection sub-structure (§4.1) —
the soongconfig implementation, present only through its tests in
src/unnamed/part_000, is not under src/.  It enumerates named conditions and
an optional `conditions_default` sub-tree. -/
structure ConditionalProps where
  conditions : List (String × PropTree)
  conditionsDefault : Option PropTree

/-- Modelled from the spec: conditional resolution (§4.1) — at resolution
time exactly one condition's sub-tree (or none) is merged into the parent
using the append/merge rule, based on an externally supplied selector
value; a selector matching no declared condition falls back to
`conditions_default`, and with no `conditions_default` the parent is left
unmodified. -/
def resolveConditional (parent : PropTree) (cp : ConditionalProps) (selector : String) :
    Option PropTree :=
  match lookupTree selector cp.conditions with
  | some sub => mergeTree parent sub
  | none =>
    match cp.conditionsDefault with
    | some d => mergeTree parent d
    | none => some parent

/-- A concrete property tree `A` with a list field, a set scalar and a
nested map. -/
def propTreeA : PropTree :=
  .node [("srcs", .list ["x"]), ("opt", .scalar (some "A")),
    ("nested", .node [("flag", .scalar (some "fa"))])]

/-- A concrete property tree `B` of the same schema setting the scalar and
extending the list and the nested map. -/
def propTreeB : PropTree :=
  .node [("srcs", .list ["y"]), ("opt", .scalar (some "B")),
    ("nested", .node [("extra", .scalar (some "fb"))])]

/-- A concrete conditional-selection sub-structure with one declared
condition and no `conditions_default`. -/
def conditionalExample : ConditionalProps :=
  ⟨[("arm64", .node [("srcs", .list ["arm64.c"])])], none⟩

/-! ## Namespace & visibility resolver (spec §4.2)

The visibility and namespace implementation is not under src/; the
following model is built from the spec's words. -/

/-- Modelled from the spec: a visibility rule (§3) — one of public
(`//visibility:public`), private (`//visibility:private`, package-only), an
exact-package rule, or a package-subtree rule.  (The visibility
implementation is not under src/.) -/
inductive VisibilityRule where
  | pub
  | priv
  | packageRule (path : String)
  | subtreeRule (path : String)
deriving DecidableEq, Repr

/-- Modelled from the spec: the visibility-relevant attributes of a module
— its declaring package path and its optional `visibility` property. -/
structure VisModule where
  pkg : String
  visibility : Option (List VisibilityRule)
deriving DecidableEq, Repr

/-- The package-path prefixes of `p` on `"/"` component boundaries, from
the longest (that is, `p` itself) to the shortest, the search order for the
nearest ancestor package's `default_visibility`. -/
def ancestorPaths (p : String) : List String :=
  let parts := splitOnSlash p
  ((List.range parts.length).reverse).map (fun i => joinSlash (parts.take (i + 1)))

/-- The first package on the list with a declared `default_visibility`. -/
def firstDefault (pd : String → Option (List VisibilityRule)) :
    List String → Option (List VisibilityRule)
  | [] => none
  | q :: rest =>
    match pd q with
    | some rs => some rs
    | none => firstDefault pd rest

/-- Modelled from the spec: a module's effective visibility rule set (§4.2)
— its own `visibility` property, else the nearest ancestor package's
`default_visibility`, else the global default "legacy public". -/
def effectiveRules (pd : String → Option (List VisibilityRule)) (m : VisModule) :
    List VisibilityRule :=
  match m.visibility with
  | some rs => rs
  | none =>
    match firstDefault pd (ancestorPaths m.pkg) with
    | some rs => rs
    | none => [.pub]

/-- Whether a rule is the public rule. -/
def isPublicRule : VisibilityRule → Bool
  | .pub => true
  | _ => false

/-- Whether a rule is the private rule. -/
def isPrivateRule : VisibilityRule → Bool
  | .priv => true
  | _ => false

/-- Whether `fromPkg` matches a listed package-exact or subtree rule. -/
def matchesRule (fromPkg : String) : VisibilityRule → Bool
  | .packageRule p => fromPkg = p
  | .subtreeRule p => fromPkg = p || (p ++ "/").toList.isPrefixOf fromPkg.toList
  | _ => false

/-- Modelled from the spec: `CheckVisibility(fromPackage, targetModule)`
(§4.2) — always true for the target's own declaring package; otherwise
evaluate the effective rule set: true if any rule is public, false if any
rule is private, else true iff `fromPackage` matches a listed
package-exact or subtree rule. -/
def CheckVisibility (pd : String → Option (List VisibilityRule)) (fromPkg : String)
    (m : VisModule) : Bool :=
  if fromPkg = m.pkg then true
  else
    let rules := effectiveRules pd m
    if rules.any isPublicRule then true
    else if rules.any isPrivateRule then false
    else rules.any (matchesRule fromPkg)

/-- A concrete package-default table: package `a/b` declares a
`default_visibility` restricted to the `c/d` subtree. -/
def pkgDefaultsExample : String → Option (List VisibilityRule) := fun q =>
  if q = "a/b" then some [.subtreeRule "c/d"] else none

/-- Modelled from the spec: a registered non-variant module record (the
namespace registration implementation is not under src/); `id` stands for
the rest of the module's identity so that two same-named modules can be
told apart. -/
structure ModuleRec where
  name : String
  id : Nat
deriving DecidableEq, Repr

/-- Modelled from the spec: the user-facing errors of the namespace
resolver (§4.2, §7). -/
inductive NsError where
  | duplicateModuleName (ns name : String)
  | unknownNamespace (scope : String)
  | unknownModule (scope name : String)
deriving DecidableEq, Repr

/-- Looks up a namespace's module table by exact namespace name in the
global registry. -/
def findNamespace : List (String × List ModuleRec) → String → Option (List ModuleRec)
  | [], _ => none
  | (n, mods) :: rest, scope => if n = scope then some mods else findNamespace rest scope

/-- Replaces the module table of namespace `scope` in the registry. -/
def updateNamespace (reg : List (String × List ModuleRec)) (scope : String)
    (mods : List ModuleRec) : List (String × List ModuleRec) :=
  reg.map (fun e => if e.1 = scope then (e.1, mods) else e)

/-- Modelled from the spec: registering a module into a namespace (§4.2) —
reject with the fatal, user-facing `DuplicateModuleName` if a same-named
non-variant module already exists in that namespace, otherwise add the
module to the namespace's table.  Failure returns no registry, so a
rejected registration leaves every table unchanged. -/
def registerModule (reg : List (String × List ModuleRec)) (scope : String)
    (m : ModuleRec) : Except NsError (List (String × List ModuleRec)) :=
  match findNamespace reg scope with
  | none => .error (.unknownNamespace scope)
  | some mods =>
    if mods.any (fun m' => m'.name = m.name) then
      .error (.duplicateModuleName scope m.name)
    else
      .ok (updateNamespace reg scope (mods ++ [m]))

/-- Modelled from the spec: resolving a qualified `//scope:name` reference
(§4.2) — look up `scope` as an exact namespace name, then `name` within it,
failing with `UnknownNamespace` or `UnknownModule` if absent.  Imported
namespaces play no role for qualified references. -/
def resolveQualified (reg : List (String × List ModuleRec)) (scope onsName : String) :
    Except NsError ModuleRec :=
  match findNamespace reg scope with
  | none => .error (.unknownNamespace scope)
  | some mods =>
    match mods.find? (fun m' => m'.name = onsName) with
    | some m => .ok m
    | none => .error (.unknownModule scope onsName)

/-- A concrete registry of two empty, non-importing namespaces. -/
def registryExample : List (String × List ModuleRec) := [("p1", []), ("p2", [])]

/-! ## Defaults modules and cycle checking (spec §4.3, §4.5)

The defaults-propagation mutator is not under src/; the following model is
built from the spec's words.  A defaults graph maps each defaults module's
name to the list of defaults modules it lists under `defaults:`. -/

/-- The defaults modules listed by module `a` (empty for an unknown name,
which has no outgoing edges). -/
def edgesOf : List (String × List String) → String → List String
  | [], _ => []
  | (n, ds) :: rest, a => if n = a then ds else edgesOf rest a

/-- Bounded reachability: `b` is reachable from `a` along defaults edges in
at least one and at most `fuel` steps. -/
def reachN (g : List (String × List String)) : Nat → String → String → Bool
  | 0, _, _ => false
  | fuel + 1, a, b =>
    (edgesOf g a).any (fun y => y = b) ||
      (edgesOf g a).any (fun c => reachN g fuel c b)

/-- The declared defaults-module names of the graph. -/
def defaultsKeys (g : List (String × List String)) : List String := g.map Prod.fst

/-- Modelled from the spec: the defaults cycle check (§4.3, §4.5) — find a
defaults module lying on a cycle, if any.  Fuel `2 * g.length` covers every
duplicate-free cycle and every composite path between two modules of one
cycle. -/
def findCycleRoot (g : List (String × List String)) : Option String :=
  (defaultsKeys g).find? (fun m => reachN g (2 * g.length) m m)

/-- The modules reported for a detected cycle: every declared module that
both reaches and is reached from the detected root — that is, every module
on a cycle through the root. -/
def cycleMembers (g : List (String × List String)) (root : String) : List String :=
  (defaultsKeys g).filter
    (fun x => reachN g (2 * g.length) root x && reachN g (2 * g.length) x root)

/-- The last element of the nonempty list `x :: rest`. -/
def lastOf (x : String) : List String → String
  | [] => x
  | y :: t => lastOf y t

/-- Whether consecutive elements of the list are joined by defaults edges. -/
def isChain (g : List (String × List String)) : List String → Bool
  | [] => true
  | [_] => true
  | a :: b :: t => (edgesOf g a).any (fun y => y = b) && isChain g (b :: t)

/-- Whether the list is a cycle in the defaults graph: nonempty, a chain,
and with an edge from its last element back to its first. -/
def isCycle (g : List (String × List String)) : List String → Bool
  | [] => false
  | x :: rest =>
    isChain g (x :: rest) && (edgesOf g (lastOf x rest)).any (fun y => y = x)

/-- Modelled from the spec: recursive defaults merging (§4.5) — each
default's properties merge into the referencing module's properties in
listed order, defaults referenced transitively applying first; the module's
own properties are merged last (a shape mismatch, a fatal error elsewhere,
keeps the accumulator).  Only run on cycle-free graphs, where fuel
`g.length` suffices. -/
def mergedProps (g : List (String × List String)) (props : String → PropTree) :
    Nat → String → PropTree
  | 0, n => props n
  | fuel + 1, n =>
    let base := (edgesOf g n).foldl
      (fun acc d =>
        match mergeTree acc (mergedProps g props fuel d) with
        | some t => t
        | none => acc)
      (PropTree.node [])
    match mergeTree base (props n) with
    | some t => t
    | none => props n

/-- Modelled from the spec: defaults propagation (§4.5) — the defaults
cycle check runs before any property merging; a detected cycle is rejected
with the user-facing error naming the cycle's modules, and only a cycle-free
graph proceeds to merging.  The error carries no property trees, so a
rejected graph has no module's properties modified. -/
def applyDefaults (g : List (String × List String)) (props : String → PropTree) :
    Except (List String) (String → PropTree) :=
  match findCycleRoot g with
  | some root => .error (cycleMembers g root)
  | none => .ok (fun n => mergedProps g props g.length n)

/-- The concrete two-module defaults cycle of the spec's example: `D1` lists
`defaults: ["D2"]` and `D2` lists `defaults: ["D1"]`. -/
def defaultsCycleExample : List (String × List String) := [("D1", ["D2"]), ("D2", ["D1"])]

/-! ## Variant splitting and edge rewriting (spec §3, §4.4)

The mutator pipeline's split operation is not under src/; the following
model is built from the spec's words. -/

/-- Modelled from the spec: a module variant (§3) — the declared module's
name together with its variation key, one `(axis, value)` binding per
variation axis the pipeline has resolved so far, in resolution order. -/
structure Variant where
  moduleName : String
  variations : List (String × String)
deriving DecidableEq, Repr

/-- Looks up the value bound to a variation axis. -/
def lookupAxis (axis : String) : List (String × String) → Option String
  | [] => none
  | (a, val) :: rest => if a = axis then some val else lookupAxis axis rest

/-- The variant's value on the given axis, if resolved. -/
def Variant.axisValue (v : Variant) (axis : String) : Option String :=
  lookupAxis axis v.variations

/-- The clone of `v` additionally resolved to `val` on `axis`. -/
def Variant.withAxis (v : Variant) (axis val : String) : Variant :=
  ⟨v.moduleName, v.variations ++ [(axis, val)]⟩

/-- Modelled from the spec: a dependency edge (§3) — directed
variant-to-variant, tagged with a semantic role. -/
structure DepEdge where
  fromV : Variant
  toV : Variant
  role : String
deriving DecidableEq, Repr

/-- Modelled from the spec: the module graph (§4.3) — the current variants
and the dependency edges between them. -/
structure ModuleGraph where
  variants : List Variant
  edges : List DepEdge
deriving DecidableEq, Repr

/-- Concatenation of the images of each element, used by the split
operation to rewrite lists element-wise into zero or more replacements. -/
def concatMap {α β : Type} (f : α → List β) : List α → List β
  | [] => []
  | x :: rest => f x ++ concatMap f rest

/-- Modelled from the spec: how one pre-existing edge is rewritten when
module `m` is split along `axis` into `values` (§4.4): an edge into the
split module from a dependent already resolved on the axis narrows to the
matching new variant; an edge from a dependent not yet resolved on the axis
fans out to all new variants until the dependent itself is later split; an
edge out of the split module narrows each new variant to the dependency
variant matching its value (or keeps the edge for every new variant when
the dependency has no value on the axis); other edges are unchanged. -/
def rewriteEdge (m axis : String) (values : List String) (e : DepEdge) : List DepEdge :=
  if e.fromV.moduleName = m then
    if e.toV.moduleName = m then
      values.map (fun val => ⟨e.fromV.withAxis axis val, e.toV.withAxis axis val, e.role⟩)
    else
      match e.toV.axisValue axis with
      | some a =>
        if a ∈ values then [⟨e.fromV.withAxis axis a, e.toV, e.role⟩] else []
      | none => values.map (fun val => ⟨e.fromV.withAxis axis val, e.toV, e.role⟩)
  else
    if e.toV.moduleName = m then
      match e.fromV.axisValue axis with
      | some a =>
        if a ∈ values then [⟨e.fromV, e.toV.withAxis axis a, e.role⟩] else []
      | none => values.map (fun val => ⟨e.fromV, e.toV.withAxis axis val, e.role⟩)
    else [e]

/-- Modelled from the spec: the split transform (§4.4) — replace every
variant of module `m` with one clone per value of the new axis, and rewrite
every pre-existing edge touching the module via `rewriteEdge`. -/
def splitModule (g : ModuleGraph) (m axis : String) (values : List String) : ModuleGraph :=
  ⟨concatMap
      (fun v => if v.moduleName = m then values.map (fun val => v.withAxis axis val) else [v])
      g.variants,
    concatMap (rewriteEdge m axis values) g.edges⟩

/-- Two variants agree on every variation axis resolved on both. -/
def agreeOnSharedAxes (p c : Variant) : Prop :=
  ∀ axis a b, p.axisValue axis = some a → c.axisValue axis = some b → a = b

/-- The graph invariant of §3: every dependency edge connects two variants
that agree on every variation axis resolved on both endpoints. -/
def edgesAgree (g : ModuleGraph) : Prop :=
  ∀ e ∈ g.edges, agreeOnSharedAxes e.fromV e.toV

/-- The axis has not yet been resolved on any edge endpoint belonging to
module `m`: the freshness discipline of an axis-introducing split. -/
def axisFreshFor (g : ModuleGraph) (m axis : String) : Prop :=
  ∀ e ∈ g.edges,
    (e.fromV.moduleName = m → e.fromV.axisValue axis = none) ∧
    (e.toV.moduleName = m → e.toV.axisValue axis = none)

/-- The spec's split scenario: module `P` depends on module `C`, neither
yet split. -/
def splitGraphExample : ModuleGraph :=
  ⟨[⟨"P", []⟩, ⟨"C", []⟩], [⟨⟨"P", []⟩, ⟨"C", []⟩, "dep"⟩]⟩

/-! ## Mutator-stage scheduling determinism (spec §4.4, §5)

The mutator pipeline scheduler is not under src/; the following model is
built from the spec's words.  A node's value of type `V` stands for
everything the stage computes for one module variant (its variants, edges
and merged properties); a stage is an embarrassingly parallel map in which
each node is recomputed from its own value and its required neighbors'
already-final values, under the bottom-up/top-down discipline. -/

/-- Modelled from the spec: the dependency structure of one mutator stage
(§5) — the graph's nodes, each node's required neighbors for the stage's
traversal discipline, and a rank function witnessing that the discipline
is acyclic. -/
structure StageGraph where
  nodes : List String
  deps : String → List String
  rank : String → Nat
  ranked : ∀ n d, d ∈ deps n → rank d < rank n

/-- The schedule-independent denotation of one stage: each node's new value
is computed by the mutator `f` from the node's initial value and its
required neighbors' final values, by recursion on the discipline's rank. -/
def denote {V : Type} (G : StageGraph) (f : String → V → List V → V) (st0 : String → V)
    (n : String) : V :=
  f n (st0 n) ((G.deps n).attach.map (fun d => denote G f st0 d.1))
termination_by G.rank n
decreasing_by exact G.ranked n d.1 d.2

/-- One worker step: node `n` recomputes its own value from the current
state. -/
def stepNode {V : Type} (G : StageGraph) (f : String → V → List V → V) (n : String)
    (st : String → V) : String → V :=
  fun m => if m = n then f n (st n) ((G.deps n).map st) else st m

/-- Modelled from the spec: one mutator stage run under an explicit worker
schedule (§5) — the nodes are processed in the schedule's order. -/
def runStage {V : Type} (G : StageGraph) (f : String → V → List V → V) :
    List String → (String → V) → (String → V)
  | [], st => st
  | n :: rest, st => runStage G f rest (stepNode G f n st)

/-- A valid schedule continuation: with the nodes of `p` already processed,
each remaining node is processed only after all its required neighbors,
and no node is processed twice. -/
inductive ValidSched (G : StageGraph) : List String → List String → Prop where
  | nil : ∀ p, ValidSched G p []
  | cons : ∀ p n rest, (∀ d ∈ G.deps n, d ∈ p) → n ∉ p →
      ValidSched G (n :: p) rest → ValidSched G p (n :: rest)

/-- Modelled from the spec: the full mutator pipeline (§4.4, §5) — the
ordered stages run one after the other (stage K+1 never starts before
stage K completes), each under its own worker schedule. -/
def runPipeline {V : Type} (G : StageGraph) :
    List (String → V → List V → V) → List (List String) → (String → V) → (String → V)
  | [], _, st => st
  | _ :: _, [], st => st
  | f :: fs, sched :: scheds, st => runPipeline G fs scheds (runStage G f sched st)

/-- A concrete two-node stage graph with no intra-stage dependencies, whose
nodes can be scheduled in either order. -/
def stageGraphExample : StageGraph :=
  ⟨["A", "B"], fun _ => [], fun _ => 0, by intro n d hd; simp at hd⟩

end Soong

namespace Soong

/-! ## Lemmas and theorems -/

lemma take_succ_ne_nil {α : Type} (l : List α) (j : Nat) (h : j < l.length) :
    ∃ b t, l.take (j + 1) = b :: t := by
  cases l with
  | nil => simp at h
  | cons x xs => exact ⟨x, xs.take j, by simp⟩

lemma joinSlash_cons_cons (acc part b : String) (t : List String) :
    acc ++ joinSlash (part :: b :: t) = (acc ++ part ++ "/") ++ joinSlash (b :: t) := by
  show acc ++ ((part ++ "/") ++ joinSlash (b :: t)) =
    ((acc ++ part) ++ "/") ++ joinSlash (b :: t)
  rw [← String.append_assoc acc (part ++ "/") (joinSlash (b :: t)),
    ← String.append_assoc acc part "/"]

/-- The scanning loop returns true exactly when some accumulated
component-boundary prefix is mapped to `Bp2BuildDefaultTrueRecursively`. -/
lemma checkPrefixes_iff (config : Bp2BuildConfig) :
    ∀ (parts : List String) (acc : String),
      checkPrefixes config acc parts = true ↔
        ∃ i < parts.length,
          config (acc ++ joinSlash (parts.take (i + 1))) = .bp2BuildDefaultTrueRecursively := by
  intro parts
  induction parts with
  | nil => intro acc; simp [checkPrefixes]
  | cons part rest ih =>
    intro acc
    simp only [checkPrefixes]
    by_cases h : config (acc ++ part) = .bp2BuildDefaultTrueRecursively
    · rw [if_pos h]
      constructor
      · intro _
        refine ⟨0, by simp, ?_⟩
        simpa [joinSlash] using h
      · intro _; rfl
    · rw [if_neg h, ih]
      constructor
      · rintro ⟨j, hj, hcfg⟩
        refine ⟨j + 1, by simpa using Nat.succ_lt_succ hj, ?_⟩
        obtain ⟨b, t, hbt⟩ := take_succ_ne_nil rest j hj
        rw [show (part :: rest).take (j + 1 + 1) = part :: rest.take (j + 1) by simp, hbt,
          joinSlash_cons_cons]
        rw [hbt] at hcfg
        exact hcfg
      · rintro ⟨i, hi, hcfg⟩
        match i with
        | 0 =>
          rw [show (part :: rest).take 1 = [part] by simp] at hcfg
          simp only [joinSlash] at hcfg
          exact absurd hcfg h
        | j + 1 =>
          have hj : j < rest.length := by simpa using Nat.lt_of_succ_lt_succ hi
          refine ⟨j, hj, ?_⟩
          obtain ⟨b, t, hbt⟩ := take_succ_ne_nil rest j hj
          rw [show (part :: rest).take (j + 1 + 1) = part :: rest.take (j + 1) by simp, hbt,
            joinSlash_cons_cons] at hcfg
          rw [hbt]
          exact hcfg

/-- C9: `bp2buildDefaultTrueRecursively p c` returns true if `c` maps `p`
itself to `Bp2BuildDefaultTrue` or `Bp2BuildDefaultTrueRecursively`; returns
false if `c` maps `p` itself to `Bp2BuildDefaultFalse` (the exact entry wins
over any recursive ancestor entry); otherwise it returns true exactly when
some prefix of `p` on `"/"` component boundaries is mapped to
`Bp2BuildDefaultTrueRecursively`; and a path matching nothing in `c` yields
false. -/
theorem bp2buildDefaultTrueRecursively_resolution (p : String) (c : Bp2BuildConfig) :
    (c p = .bp2BuildDefaultTrue ∨ c p = .bp2BuildDefaultTrueRecursively →
        bp2buildDefaultTrueRecursively p c = true) ∧
    (c p = .bp2BuildDefaultFalse → bp2buildDefaultTrueRecursively p c = false) ∧
    (c p = .unset →
        (bp2buildDefaultTrueRecursively p c = true ↔
          ∃ i < (splitOnSlash p).length,
            c (joinSlash ((splitOnSlash p).take (i + 1))) = .bp2BuildDefaultTrueRecursively)) ∧
    ((∀ q, c q = .unset) → bp2buildDefaultTrueRecursively p c = false) := by
  refine ⟨?_, ?_, ?_, ?_⟩
  · intro h
    simp [bp2buildDefaultTrueRecursively, h]
  · intro h
    have h1 : ¬(c p = .bp2BuildDefaultTrue ∨ c p = .bp2BuildDefaultTrueRecursively) := by
      rintro (h' | h') <;> rw [h] at h' <;> exact absurd h' (by simp)
    simp [bp2buildDefaultTrueRecursively, h1, h]
  · intro h
    have h1 : ¬(c p = .bp2BuildDefaultTrue ∨ c p = .bp2BuildDefaultTrueRecursively) := by
      rintro (h' | h') <;> rw [h] at h' <;> exact absurd h' (by simp)
    have h2 : ¬(c p = .bp2BuildDefaultFalse) := by
      intro h'; rw [h] at h'; exact absurd h' (by simp)
    rw [bp2buildDefaultTrueRecursively, if_neg h1, if_neg h2]
    exact checkPrefixes_iff c (splitOnSlash p) ""
  · intro h
    have h1 : ¬(c p = .bp2BuildDefaultTrue ∨ c p = .bp2BuildDefaultTrueRecursively) := by
      rintro (h' | h') <;> rw [h p] at h' <;> exact absurd h' (by simp)
    have h2 : ¬(c p = .bp2BuildDefaultFalse) := by
      intro h'; rw [h p] at h'; exact absurd h' (by simp)
    rw [bp2buildDefaultTrueRecursively, if_neg h1, if_neg h2]
    rw [← Bool.not_eq_true]
    rw [checkPrefixes_iff c (splitOnSlash p) ""]
    rintro ⟨i, _, hcfg⟩
    rw [h] at hcfg
    exact absurd hcfg (by simp)

/-- Witness for C9: instantiating at the concrete config `configExample`
exercises each branch of the resolution theorem. -/
theorem bp2buildDefaultTrueRecursively_resolution_witness :
    bp2buildDefaultTrueRecursively "x/y" configExample = true ∧
    bp2buildDefaultTrueRecursively "d" configExample = false ∧
    bp2buildDefaultTrueRecursively "a/b/c" configExample = false ∧
    bp2buildDefaultTrueRecursively "a/b" configExample = true := by
  refine ⟨?_, ?_, ?_, ?_⟩
  · exact ((bp2buildDefaultTrueRecursively_resolution "x/y" configExample).2.2.1
      (by decide)).mpr ⟨0, by decide, by decide⟩
  · exact (bp2buildDefaultTrueRecursively_resolution "d" configExample).2.1 (by decide)
  · rw [← Bool.not_eq_true]
    rw [(bp2buildDefaultTrueRecursively_resolution "a/b/c" configExample).2.2.1 (by decide)]
    decide
  · exact (bp2buildDefaultTrueRecursively_resolution "a/b" configExample).1 (Or.inl (by decide))

/-- C8: `shouldConvertWithBp2build` is false for denylisted module names and
for module types not marked convertible, regardless of `bp2build_available`;
otherwise, in a package defaulting to conversion the tristate defaults to
true (explicit false opts out), and elsewhere it defaults to false (explicit
true opts in).  `MixedBuildsEnabled` is additionally false for Windows-OS
variants, disabled modules, unconverted modules, and mixed-builds-denylisted
modules. -/
theorem bazel_optin_flags_spec (b : BazelModuleProps) (ctx : BazelConversionCtxInfo)
    (m : MixedBuildsCtxInfo) :
    (bp2buildModuleDoNotConvert ctx.moduleName = true →
        shouldConvertWithBp2build b ctx = false) ∧
    (b.canConvertToBazel = false → shouldConvertWithBp2build b ctx = false) ∧
    (bp2buildModuleDoNotConvert ctx.moduleName = false → b.canConvertToBazel = true →
        bp2buildDefaultTrueRecursively ctx.packagePath ctx.bp2buildPackageConfig = true →
        shouldConvertWithBp2build b ctx = boolDefault b.bp2buildAvailable true) ∧
    (bp2buildModuleDoNotConvert ctx.moduleName = false → b.canConvertToBazel = true →
        bp2buildDefaultTrueRecursively ctx.packagePath ctx.bp2buildPackageConfig = false →
        shouldConvertWithBp2build b ctx = boolDefault b.bp2buildAvailable false) ∧
    (m.os = .windows → MixedBuildsEnabled m = false) ∧
    (m.moduleEnabled = false → MixedBuildsEnabled m = false) ∧
    (convertedToBazel m = false → MixedBuildsEnabled m = false) ∧
    (mixedBuildsDisabled m.moduleName = true → MixedBuildsEnabled m = false) := by
  refine ⟨?_, ?_, ?_, ?_, ?_, ?_, ?_, ?_⟩
  · intro h; simp [shouldConvertWithBp2build, h]
  · intro h; simp [shouldConvertWithBp2build, h]
  · intro h1 h2 h3; simp [shouldConvertWithBp2build, h1, h2, h3]
  · intro h1 h2 h3; simp [shouldConvertWithBp2build, h1, h2, h3]
  · intro h; simp [MixedBuildsEnabled, h]
  · intro h; simp [MixedBuildsEnabled, h]
  · intro h; simp [MixedBuildsEnabled, h]
  · intro h; simp [MixedBuildsEnabled, h]

/-- Witness for C8: the denylisted name `"adb"` never converts, an
unconvertible module type never converts, `convCtxExample` (package `x/y`
inside the recursively-converting `x` subtree) converts with the tristate
unset, a module outside any converting package does not, a Windows variant
and a disabled variant are excluded from mixed builds, a non-`Bazelable`
module is excluded, and the mixed-builds-denylisted `libcap` is excluded. -/
theorem bazel_optin_flags_spec_witness :
    shouldConvertWithBp2build bazelPropsExample ⟨"adb", "x/y", configExample⟩ = false ∧
    shouldConvertWithBp2build ⟨none, some true, false⟩ convCtxExample = false ∧
    shouldConvertWithBp2build bazelPropsExample convCtxExample = true ∧
    shouldConvertWithBp2build bazelPropsExample ⟨"mymod", "q/r", configExample⟩ = false ∧
    MixedBuildsEnabled ⟨.windows, true, true, true, bazelPropsExample, "mymod", "x/y",
      configExample⟩ = false ∧
    MixedBuildsEnabled ⟨.linux, false, true, true, bazelPropsExample, "mymod", "x/y",
      configExample⟩ = false ∧
    MixedBuildsEnabled ⟨.linux, true, true, false, ⟨none, none, false⟩, "mymod", "x/y",
      configExample⟩ = false ∧
    MixedBuildsEnabled mixedCtxExample = false := by
  refine ⟨?_, ?_, ?_, ?_, ?_, ?_, ?_, ?_⟩
  · exact (bazel_optin_flags_spec bazelPropsExample ⟨"adb", "x/y", configExample⟩
      mixedCtxExample).1 (by decide)
  · exact (bazel_optin_flags_spec ⟨none, some true, false⟩ convCtxExample
      mixedCtxExample).2.1 (by decide)
  · exact (bazel_optin_flags_spec bazelPropsExample convCtxExample
      mixedCtxExample).2.2.1 (by decide) (by decide) (by decide)
  · exact (bazel_optin_flags_spec bazelPropsExample ⟨"mymod", "q/r", configExample⟩
      mixedCtxExample).2.2.2.1 (by decide) (by decide) (by decide)
  · exact (bazel_optin_flags_spec bazelPropsExample convCtxExample
      ⟨.windows, true, true, true, bazelPropsExample, "mymod", "x/y",
        configExample⟩).2.2.2.2.1 (by decide)
  · exact (bazel_optin_flags_spec bazelPropsExample convCtxExample
      ⟨.linux, false, true, true, bazelPropsExample, "mymod", "x/y",
        configExample⟩).2.2.2.2.2.1 (by decide)
  · exact (bazel_optin_flags_spec bazelPropsExample convCtxExample
      ⟨.linux, true, true, false, ⟨none, none, false⟩, "mymod", "x/y",
        configExample⟩).2.2.2.2.2.2.1 (by decide)
  · exact (bazel_optin_flags_spec bazelPropsExample convCtxExample
      mixedCtxExample).2.2.2.2.2.2.2 (by decide)

/-- C10: `Module.OutputFiles` returns a copy of the full output list with no
error for the empty tag, returns exactly the single output whose relative
path equals a non-empty tag when such an output exists, and returns the
`unsupported module reference tag` error with no paths when a non-empty tag
matches no output's relative path. -/
theorem OutputFiles_spec (outs : List GPath) (tag : String) :
    (tag = "" → OutputFiles outs tag = .ok outs) ∧
    (tag ≠ "" → ∀ f ∈ outs, f.rel = tag → (∀ g ∈ outs, g.rel = tag → g = f) →
        OutputFiles outs tag = .ok [f]) ∧
    (tag ≠ "" → (∀ f ∈ outs, f.rel ≠ tag) →
        OutputFiles outs tag =
          .error ("unsupported module reference tag \"" ++ tag ++ "\"")) := by
  refine ⟨?_, ?_, ?_⟩
  · intro h; simp [OutputFiles, h]
  · intro h f hf hrel huniq
    rw [OutputFiles, if_neg h]
    have hsome : (outs.find? (fun o => o.rel = tag)).isSome := by
      rw [List.find?_isSome]
      exact ⟨f, hf, by simp [hrel]⟩
    obtain ⟨y, hy⟩ := Option.isSome_iff_exists.mp hsome
    have hyp := List.find?_some hy
    have hmem : y ∈ outs := List.mem_of_find?_eq_some hy
    have hyf : y = f := huniq y hmem (by simpa using hyp)
    rw [hy, hyf]
  · intro h hnone
    rw [OutputFiles, if_neg h]
    have hfind : outs.find? (fun o => o.rel = tag) = none := by
      rw [List.find?_eq_none]
      intro x hx
      simp [hnone x hx]
    rw [hfind]

/-- Witness for C10: on a genrule with outputs `gen/a.h` and `gen/b.h`, the
empty tag returns both, tag `gen/b.h` returns exactly that output, and the
unmatched tag `nope` produces the error. -/
theorem OutputFiles_spec_witness :
    OutputFiles outputFilesExample "" = .ok outputFilesExample ∧
    OutputFiles outputFilesExample "gen/b.h" = .ok [⟨"gen/b.h"⟩] ∧
    OutputFiles outputFilesExample "nope" =
      .error ("unsupported module reference tag \"nope\"") := by
  refine ⟨?_, ?_, ?_⟩
  · exact (OutputFiles_spec outputFilesExample "").1 rfl
  · exact (OutputFiles_spec outputFilesExample "gen/b.h").2.1 (by decide) ⟨"gen/b.h"⟩
      (by decide) rfl (by decide)
  · exact (OutputFiles_spec outputFilesExample "nope").2.2 (by decide) (by decide)

lemma lookupTree_removeKey (k k' : String) (h : ¬ k = k') :
    ∀ b, lookupTree k (removeKey k' b) = lookupTree k b := by
  intro b
  induction b with
  | nil => rfl
  | cons e rest ih =>
    obtain ⟨k₁, v⟩ := e
    by_cases h1 : k₁ = k'
    · have h2 : ¬ k₁ = k := fun hh => h (hh ▸ h1)
      rw [show removeKey k' ((k₁, v) :: rest) = removeKey k' rest by
        simp [removeKey, h1]]
      rw [ih]
      simp [lookupTree, h2]
    · rw [show removeKey k' ((k₁, v) :: rest) = (k₁, v) :: removeKey k' rest by
        simp [removeKey, h1]]
      by_cases h2 : k₁ = k
      · simp [lookupTree, h2]
      · simp [lookupTree, h2, ih]

/-- Looking up any key in a successful key-wise merge of two nested maps:
shared keys hold the recursive merge, keys only in the first map keep its
value, and keys absent from the first map resolve in the second. -/
lemma lookupTree_mergeEntries :
    ∀ (a b m : List (String × PropTree)), mergeEntries a b = some m → ∀ k,
      lookupTree k m =
        match lookupTree k a, lookupTree k b with
        | some v, some w => mergeTree v w
        | some v, none => some v
        | none, _ => lookupTree k b := by
  intro a
  induction a with
  | nil =>
    intro b m h k
    simp only [mergeEntries, Option.some.injEq] at h
    subst h
    simp [lookupTree]
  | cons e rest ih =>
    obtain ⟨k', v⟩ := e
    intro b m h k
    simp only [mergeEntries] at h
    cases hw : lookupTree k' b with
    | some w =>
      simp only [hw] at h
      cases hmv : mergeTree v w with
      | none => simp [hmv] at h
      | some mv =>
        simp only [hmv] at h
        cases hmr : mergeEntries rest (removeKey k' b) with
        | none => simp [hmr] at h
        | some mrest =>
          simp only [hmr, Option.some.injEq] at h
          subst h
          by_cases hk : k' = k
          · subst hk
            simp [lookupTree, hw, hmv]
          · have hrec := ih (removeKey k' b) mrest hmr k
            rw [lookupTree_removeKey k k' (fun hh => hk hh.symm)] at hrec
            simp only [lookupTree, if_neg hk]
            exact hrec
    | none =>
      simp only [hw] at h
      cases hmr : mergeEntries rest b with
      | none => simp [hmr] at h
      | some mrest =>
        simp only [hmr, Option.some.injEq] at h
        subst h
        by_cases hk : k' = k
        · subst hk
          simp [lookupTree, hw]
        · have hrec := ih b mrest hmr k
          simp only [lookupTree, if_neg hk]
          exact hrec

/-- C1: the append/merge of two same-schema property trees overwrites a
scalar with the later tree's value when set (keeping the earlier value
otherwise), concatenates list fields (`A=["x"], B=["y"]` merges to
`["x","y"]`), unions nested maps key-wise with the merge applied
recursively on shared keys, and in a chain of merges the later-merged tree
wins on conflicting scalar fields. -/
theorem property_merge_spec :
    (∀ x b, mergeTree (.scalar x) (.scalar (some b)) = some (.scalar (some b))) ∧
    (∀ x, mergeTree (.scalar x) (.scalar none) = some (.scalar x)) ∧
    (∀ xs ys, mergeTree (.list xs) (.list ys) = some (.list (xs ++ ys))) ∧
    (mergeTree (.list ["x"]) (.list ["y"]) = some (.list ["x", "y"])) ∧
    (∀ a b m, mergeTree (.node a) (.node b) = some (.node m) →
      ∀ k, (∀ v w, lookupTree k a = some v → lookupTree k b = some w →
              lookupTree k m = mergeTree v w) ∧
        (∀ v, lookupTree k a = some v → lookupTree k b = none → lookupTree k m = some v) ∧
        (lookupTree k a = none → lookupTree k m = lookupTree k b)) ∧
    (∀ x y z s1, mergeTree (.scalar x) (.scalar y) = some s1 →
        mergeTree s1 (.scalar z) =
          some (.scalar (if z.isSome then z else if y.isSome then y else x))) := by
  refine ⟨?_, ?_, ?_, rfl, ?_, ?_⟩
  · intro x b; rfl
  · intro x; rfl
  · intro xs ys; rfl
  · intro a b m h k
    have hab : mergeEntries a b = some m := by
      simp only [mergeTree, Option.map_eq_some'] at h
      obtain ⟨m', hm', he⟩ := h
      injection he with he'
      subst he'
      exact hm'
    have hlook := lookupTree_mergeEntries a b m hab k
    refine ⟨?_, ?_, ?_⟩
    · intro v w hv hw; rw [hlook, hv, hw]
    · intro v hv hw; rw [hlook, hv, hw]
    · intro hv; rw [hlook, hv]
  · intro x y z s1 h
    cases y with
    | none =>
      simp only [mergeTree, Option.isSome_none, Bool.false_eq_true, if_false,
        Option.some.injEq] at h
      subst h
      cases z <;> rfl
    | some yv =>
      simp only [mergeTree, Option.isSome_some, if_true, Option.some.injEq] at h
      subst h
      cases z <;> rfl

/-- Witness for C1: merging the concrete trees `A` and `B` exhibits scalar
overwrite, list concatenation (`["x"] ++ ["y"] = ["x","y"]`), and the
recursive key-wise union of the nested maps; a second merge shows the
later-merged tree winning on the conflicting scalar. -/
theorem property_merge_spec_witness :
    mergeTree propTreeA propTreeB =
      some (.node [("srcs", .list ["x", "y"]), ("opt", .scalar (some "B")),
        ("nested", .node [("flag", .scalar (some "fa")), ("extra", .scalar (some "fb"))])]) ∧
    mergeTree (.scalar (some "A")) (.scalar (some "B")) = some (.scalar (some "B")) ∧
    mergeTree (.scalar (some "a1")) (.scalar none) = some (.scalar (some "a1")) ∧
    (∃ m, mergeTree propTreeA propTreeB = some (.node m) ∧
      lookupTree "srcs" m = some (.list ["x", "y"])) ∧
    mergeTree (.scalar none) (.scalar (some "y1")) = some (.scalar (some "y1")) := by
  refine ⟨rfl, ?_, ?_, ?_, ?_⟩
  · exact (property_merge_spec).1 (some "A") "B"
  · exact (property_merge_spec).2.1 (some "a1")
  · refine ⟨_, rfl, ?_⟩
    have h := (property_merge_spec).2.2.2.2.1 _ _ _ (rfl :
      mergeTree propTreeA propTreeB =
        some (.node [("srcs", .list ["x", "y"]), ("opt", .scalar (some "B")),
          ("nested", .node [("flag", .scalar (some "fa")),
            ("extra", .scalar (some "fb"))])])) "srcs"
    exact (h.1 (.list ["x"]) (.list ["y"]) rfl rfl).trans rfl
  · exact (property_merge_spec).1 none "y1"

/-- C2: resolving a conditional-selection sub-structure with a selector
value that matches no declared condition, when no `conditions_default` is
declared, returns the parent property tree unmodified — it neither merges
any condition's sub-tree nor signals an error. -/
theorem conditional_no_match_no_default_unmodified (parent : PropTree)
    (cp : ConditionalProps) (selector : String)
    (hnomatch : lookupTree selector cp.conditions = none)
    (hnodefault : cp.conditionsDefault = none) :
    resolveConditional parent cp selector = some parent := by
  simp [resolveConditional, hnomatch, hnodefault]

/-- Witness for C2: selecting `x86` against a sub-structure declaring only
an `arm64` condition and no `conditions_default` leaves the parent tree
unmodified. -/
theorem conditional_no_match_no_default_unmodified_witness :
    resolveConditional propTreeA conditionalExample "x86" = some propTreeA :=
  conditional_no_match_no_default_unmodified propTreeA conditionalExample "x86" rfl rfl

/-- C3: `CheckVisibility` is true whenever the referencing package is the
target's own declaring package; otherwise it evaluates the effective rule
set (own `visibility`, else nearest ancestor `default_visibility`, else
legacy public): true if any rule is public, false if any rule is private,
else true iff the referencing package matches a listed package-exact or
subtree rule; `["//visibility:public"]` passes for every package and
`["//visibility:private"]` fails for every package other than the
target's own. -/
theorem CheckVisibility_spec (pd : String → Option (List VisibilityRule))
    (fromPkg : String) (m : VisModule) :
    (fromPkg = m.pkg → CheckVisibility pd fromPkg m = true) ∧
    ((effectiveRules pd m).any isPublicRule = true → CheckVisibility pd fromPkg m = true) ∧
    (fromPkg ≠ m.pkg → (effectiveRules pd m).any isPublicRule = false →
        (effectiveRules pd m).any isPrivateRule = true →
        CheckVisibility pd fromPkg m = false) ∧
    (fromPkg ≠ m.pkg → (effectiveRules pd m).any isPublicRule = false →
        (effectiveRules pd m).any isPrivateRule = false →
        CheckVisibility pd fromPkg m = (effectiveRules pd m).any (matchesRule fromPkg)) ∧
    (m.visibility = some [.pub] → CheckVisibility pd fromPkg m = true) ∧
    (m.visibility = some [.priv] → fromPkg ≠ m.pkg → CheckVisibility pd fromPkg m = false) ∧
    (m.visibility = none → firstDefault pd (ancestorPaths m.pkg) = none →
        CheckVisibility pd fromPkg m = true) := by
  refine ⟨?_, ?_, ?_, ?_, ?_, ?_, ?_⟩
  · intro h; simp [CheckVisibility, h]
  · intro h
    by_cases hsame : fromPkg = m.pkg
    · simp [CheckVisibility, hsame]
    · simp [CheckVisibility, hsame, h]
  · intro hsame hpub hpriv
    simp [CheckVisibility, hsame, hpub, hpriv]
  · intro hsame hpub hpriv
    simp [CheckVisibility, hsame, hpub, hpriv]
  · intro h
    by_cases hsame : fromPkg = m.pkg
    · simp [CheckVisibility, hsame]
    · simp [CheckVisibility, hsame, effectiveRules, h, isPublicRule]
  · intro h hsame
    simp [CheckVisibility, hsame, effectiveRules, h, isPublicRule, isPrivateRule]
  · intro hvis hdef
    by_cases hsame : fromPkg = m.pkg
    · simp [CheckVisibility, hsame]
    · simp [CheckVisibility, hsame, effectiveRules, hvis, hdef, isPublicRule]

/-- Witness for C3: a private module passes from its own package and fails
from another; a public module passes from a foreign package; a module with
no `visibility` inherits `a/b`'s `default_visibility` (passing from the
`c/d` subtree, failing elsewhere); and a module with nothing declared
anywhere is legacy public. -/
theorem CheckVisibility_spec_witness :
    CheckVisibility pkgDefaultsExample "a/b" ⟨"a/b", some [.priv]⟩ = true ∧
    CheckVisibility pkgDefaultsExample "c/d" ⟨"a/b", some [.priv]⟩ = false ∧
    CheckVisibility pkgDefaultsExample "c/d" ⟨"a/b", some [.pub]⟩ = true ∧
    CheckVisibility pkgDefaultsExample "c/d/e" ⟨"a/b/f", none⟩ =
      ((effectiveRules pkgDefaultsExample ⟨"a/b/f", none⟩).any (matchesRule "c/d/e")) ∧
    CheckVisibility pkgDefaultsExample "z" ⟨"q/r", none⟩ = true := by
  refine ⟨?_, ?_, ?_, ?_, ?_⟩
  · exact (CheckVisibility_spec pkgDefaultsExample "a/b" ⟨"a/b", some [.priv]⟩).1 rfl
  · exact (CheckVisibility_spec pkgDefaultsExample "c/d" ⟨"a/b", some [.priv]⟩).2.2.2.2.2.1
      rfl (by decide)
  · exact (CheckVisibility_spec pkgDefaultsExample "c/d" ⟨"a/b", some [.pub]⟩).2.2.2.2.1 rfl
  · exact (CheckVisibility_spec pkgDefaultsExample "c/d/e" ⟨"a/b/f", none⟩).2.2.2.1
      (by decide) (by decide) (by decide)
  · exact (CheckVisibility_spec pkgDefaultsExample "z" ⟨"q/r", none⟩).2.2.2.2.2.2
      rfl (by decide)

lemma findNamespace_update_self :
    ∀ (reg : List (String × List ModuleRec)) (scope : String) (mods mods0 : List ModuleRec),
      findNamespace reg scope = some mods0 →
      findNamespace (updateNamespace reg scope mods) scope = some mods := by
  intro reg scope mods
  induction reg with
  | nil => intro mods0 h; simp [findNamespace] at h
  | cons e rest ih =>
    obtain ⟨n, ms⟩ := e
    intro mods0 h
    simp only [updateNamespace, List.map_cons]
    by_cases hn : n = scope
    · rw [if_pos hn]
      simp only [findNamespace]
      rw [if_pos hn]
    · rw [if_neg hn]
      simp only [findNamespace]
      rw [if_neg hn]
      simp only [findNamespace] at h
      rw [if_neg hn] at h
      exact ih mods0 h

lemma findNamespace_update_other
    (reg : List (String × List ModuleRec)) (scope scope' : String)
    (mods : List ModuleRec) (h : ¬ scope' = scope) :
    findNamespace (updateNamespace reg scope mods) scope' = findNamespace reg scope' := by
  induction reg with
  | nil => rfl
  | cons e rest ih =>
    obtain ⟨n, ms⟩ := e
    simp only [updateNamespace, List.map_cons]
    by_cases hn : n = scope
    · have hn' : ¬ n = scope' := fun hh => h (hh ▸ hn)
      rw [if_pos hn]
      simp only [findNamespace]
      rw [if_neg hn', if_neg hn']
      exact ih
    · rw [if_neg hn]
      by_cases hn' : n = scope'
      · simp only [findNamespace]
        rw [if_pos hn', if_pos hn']
      · simp only [findNamespace]
        rw [if_neg hn', if_neg hn']
        exact ih

lemma find?_append_of_none {α : Type} (p : α → Bool) :
    ∀ (l1 l2 : List α), l1.find? p = none → (l1 ++ l2).find? p = l2.find? p := by
  intro l1 l2 h
  induction l1 with
  | nil => simp
  | cons x xs ih =>
    cases hp : p x with
    | true => rw [List.find?_cons_of_pos _ hp] at h; exact absurd h (by simp)
    | false =>
      rw [List.find?_cons_of_neg _ (by simp [hp])] at h
      rw [List.cons_append, List.find?_cons_of_neg _ (by simp [hp])]
      exact ih h

/-- C4: registering a second same-named non-variant module into a namespace
fails with the fatal, user-facing `DuplicateModuleName` error (failure
returns no registry, so the namespace's table is unchanged); registering
the two same-named modules into two different namespaces succeeds, and each
module remains resolvable through its qualified `//scope:name` reference. -/
theorem namespace_uniqueness_spec (reg : List (String × List ModuleRec))
    (ns1 ns2 n : String) (m1 m2 : ModuleRec) (mods1 mods2 : List ModuleRec) :
    (∀ scope mods m, findNamespace reg scope = some mods →
        mods.any (fun m' => m'.name = m.name) = true →
        registerModule reg scope m = .error (.duplicateModuleName scope m.name)) ∧
    (ns1 ≠ ns2 → m1.name = n → m2.name = n →
        findNamespace reg ns1 = some mods1 →
        mods1.any (fun m' => m'.name = n) = false →
        findNamespace reg ns2 = some mods2 →
        mods2.any (fun m' => m'.name = n) = false →
        ∃ reg' reg'',
          registerModule reg ns1 m1 = .ok reg' ∧
          registerModule reg' ns2 m2 = .ok reg'' ∧
          resolveQualified reg'' ns1 n = .ok m1 ∧
          resolveQualified reg'' ns2 n = .ok m2) := by
  constructor
  · intro scope mods m hfind hdup
    simp only [registerModule, hfind, hdup, if_true]
  · intro hns hm1 hm2 h1 hc1 h2 hc2
    have hany1 : mods1.any (fun m' => m'.name = m1.name) = false := by rw [hm1]; exact hc1
    have hany2 : mods2.any (fun m' => m'.name = m2.name) = false := by rw [hm2]; exact hc2
    refine ⟨updateNamespace reg ns1 (mods1 ++ [m1]),
      updateNamespace (updateNamespace reg ns1 (mods1 ++ [m1])) ns2 (mods2 ++ [m2]),
      ?_, ?_, ?_, ?_⟩
    · simp [registerModule, h1, hany1]
    · have hfind2 : findNamespace (updateNamespace reg ns1 (mods1 ++ [m1])) ns2 = some mods2 := by
        rw [findNamespace_update_other reg ns1 ns2 (mods1 ++ [m1]) (fun hh => hns hh.symm)]
        exact h2
      simp [registerModule, hfind2, hany2]
    · have hfind1 : findNamespace
          (updateNamespace (updateNamespace reg ns1 (mods1 ++ [m1])) ns2 (mods2 ++ [m2])) ns1 =
          some (mods1 ++ [m1]) := by
        rw [findNamespace_update_other _ ns2 ns1 (mods2 ++ [m2]) hns]
        exact findNamespace_update_self reg ns1 (mods1 ++ [m1]) mods1 h1
      have hnone1 : mods1.find? (fun m' => m'.name = n) = none := by
        rw [List.find?_eq_none]
        intro x hx
        have := List.any_eq_false.mp hc1 x hx
        simpa using this
      simp only [resolveQualified, hfind1]
      rw [find?_append_of_none _ mods1 [m1] hnone1]
      simp [List.find?, hm1]
    · have hfind2 : findNamespace
          (updateNamespace (updateNamespace reg ns1 (mods1 ++ [m1])) ns2 (mods2 ++ [m2])) ns2 =
          some (mods2 ++ [m2]) := by
        have hf : findNamespace (updateNamespace reg ns1 (mods1 ++ [m1])) ns2 = some mods2 := by
          rw [findNamespace_update_other reg ns1 ns2 (mods1 ++ [m1]) (fun hh => hns hh.symm)]
          exact h2
        exact findNamespace_update_self _ ns2 (mods2 ++ [m2]) mods2 hf
      have hnone2 : mods2.find? (fun m' => m'.name = n) = none := by
        rw [List.find?_eq_none]
        intro x hx
        have := List.any_eq_false.mp hc2 x hx
        simpa using this
      simp only [resolveQualified, hfind2]
      rw [find?_append_of_none _ mods2 [m2] hnone2]
      simp [List.find?, hm2]

/-- Witness for C4: registering `foo` twice into `p1` fails with
`DuplicateModuleName`, while registering two distinct modules both named
`foo` into the different namespaces `p1` and `p2` succeeds with each
resolvable through its qualified reference. -/
theorem namespace_uniqueness_spec_witness :
    registerModule [("p1", [⟨"foo", 1⟩])] "p1" ⟨"foo", 2⟩ =
      .error (.duplicateModuleName "p1" "foo") ∧
    (∃ reg' reg'',
      registerModule registryExample "p1" ⟨"foo", 1⟩ = .ok reg' ∧
      registerModule reg' "p2" ⟨"foo", 2⟩ = .ok reg'' ∧
      resolveQualified reg'' "p1" "foo" = .ok ⟨"foo", 1⟩ ∧
      resolveQualified reg'' "p2" "foo" = .ok ⟨"foo", 2⟩) := by
  constructor
  · exact (namespace_uniqueness_spec [("p1", [⟨"foo", 1⟩])] "p1" "p2" "foo"
      ⟨"foo", 1⟩ ⟨"foo", 2⟩ [] []).1 "p1" [⟨"foo", 1⟩] ⟨"foo", 2⟩ rfl (by decide)
  · exact (namespace_uniqueness_spec registryExample "p1" "p2" "foo"
      ⟨"foo", 1⟩ ⟨"foo", 2⟩ [] []).2 (by decide) rfl rfl rfl rfl rfl rfl

lemma any_eq_mem (l : List String) (b : String) :
    ((l.any (fun y => y = b)) = true) ↔ b ∈ l := by
  rw [List.any_eq_true]
  constructor
  · rintro ⟨x, hx, hxb⟩
    have hxb' : x = b := by simpa using hxb
    exact hxb' ▸ hx
  · intro h
    exact ⟨b, h, by simp⟩

lemma mem_keys_of_edge : ∀ (g : List (String × List String)) (a b : String),
    b ∈ edgesOf g a → a ∈ defaultsKeys g := by
  intro g a b
  induction g with
  | nil => intro h; simp [edgesOf] at h
  | cons e rest ih =>
    obtain ⟨n, ds⟩ := e
    intro h
    simp only [edgesOf] at h
    by_cases hn : n = a
    · subst hn
      exact List.mem_cons_self _ _
    · rw [if_neg hn] at h
      exact List.mem_cons_of_mem _ (ih h)

lemma reachN_mono (g : List (String × List String)) :
    ∀ (f f' : Nat) (a b : String), f ≤ f' →
      reachN g f a b = true → reachN g f' a b = true := by
  intro f
  induction f with
  | zero => intro f' a b _ h; simp [reachN] at h
  | succ f ih =>
    intro f' a b hle h
    cases f' with
    | zero => exact absurd hle (by omega)
    | succ f'' =>
      simp only [reachN] at h ⊢
      rw [Bool.or_eq_true] at h ⊢
      rcases h with h1 | h2
      · exact Or.inl h1
      · right
        rw [List.any_eq_true] at h2 ⊢
        obtain ⟨c, hc, hr⟩ := h2
        exact ⟨c, hc, ih f'' c b (by omega) hr⟩

lemma reachN_trans (g : List (String × List String)) :
    ∀ (f1 f2 : Nat) (a b c : String),
      reachN g f1 a b = true → reachN g f2 b c = true →
      reachN g (f1 + f2) a c = true := by
  intro f1
  induction f1 with
  | zero => intro f2 a b c h _; simp [reachN] at h
  | succ f ih =>
    intro f2 a b c h1 h2
    rw [show f + 1 + f2 = (f + f2) + 1 by omega]
    simp only [reachN] at h1 ⊢
    rw [Bool.or_eq_true] at h1 ⊢
    rcases h1 with hd | hind
    · right
      rw [List.any_eq_true]
      exact ⟨b, (any_eq_mem _ _).mp hd,
        reachN_mono g f2 (f + f2) b c (by omega) h2⟩
    · right
      rw [List.any_eq_true] at hind ⊢
      obtain ⟨d, hd, hr⟩ := hind
      exact ⟨d, hd, ih f2 d b c hr h2⟩

lemma chain_reach (g : List (String × List String)) :
    ∀ (t : List String) (a b : String),
      isChain g (a :: t) = true → b ∈ edgesOf g (lastOf a t) →
      reachN g (t.length + 1) a b = true := by
  intro t
  induction t with
  | nil =>
    intro a b _ hedge
    simp only [lastOf] at hedge
    simp only [reachN]
    rw [Bool.or_eq_true]
    exact Or.inl ((any_eq_mem _ _).mpr hedge)
  | cons c t' ih =>
    intro a b hchain hedge
    simp only [isChain, Bool.and_eq_true] at hchain
    obtain ⟨hac, hct⟩ := hchain
    simp only [lastOf] at hedge
    show reachN g (t'.length + 1 + 1) a b = true
    simp only [reachN]
    rw [Bool.or_eq_true]
    right
    rw [List.any_eq_true]
    exact ⟨c, (any_eq_mem _ _).mp hac, ih c b hct hedge⟩

lemma chain_tail (g : List (String × List String)) (a : String) (t : List String)
    (h : isChain g (a :: t) = true) : isChain g t = true := by
  cases t with
  | nil => rfl
  | cons b t' =>
    simp only [isChain, Bool.and_eq_true] at h
    exact h.2

lemma chain_append_right (g : List (String × List String)) :
    ∀ (l1 m : List String), isChain g (l1 ++ m) = true → isChain g m = true := by
  intro l1
  induction l1 with
  | nil => intro m h; exact h
  | cons a l1' ih =>
    intro m h
    exact ih m (chain_tail g a (l1' ++ m) h)

lemma lastOf_append : ∀ (t : List String) (a u : String) (l2 : List String),
    lastOf a (t ++ u :: l2) = lastOf u l2 := by
  intro t
  induction t with
  | nil => intro a u l2; rfl
  | cons c t' ih => intro a u l2; exact ih c u l2

lemma chain_reach_mem (g : List (String × List String)) :
    ∀ (t : List String) (a v : String),
      isChain g (a :: t) = true → v ∈ t →
      ∃ f, f ≤ t.length ∧ reachN g f a v = true := by
  intro t
  induction t with
  | nil => intro a v _ hv; simp at hv
  | cons c t' ih =>
    intro a v hchain hv
    simp only [isChain, Bool.and_eq_true] at hchain
    obtain ⟨hac, hct⟩ := hchain
    rcases List.mem_cons.mp hv with hvc | hvt
    · subst hvc
      refine ⟨1, by simp, ?_⟩
      simp only [reachN]
      rw [Bool.or_eq_true]
      exact Or.inl hac
    · obtain ⟨f, hf, hr⟩ := ih c v hct hvt
      refine ⟨f + 1, by simpa using Nat.succ_le_succ hf, ?_⟩
      simp only [reachN]
      rw [Bool.or_eq_true]
      right
      rw [List.any_eq_true]
      exact ⟨c, (any_eq_mem _ _).mp hac, hr⟩

lemma chain_subset_keys (g : List (String × List String)) :
    ∀ (t : List String) (a b : String),
      isChain g (a :: t) = true → b ∈ edgesOf g (lastOf a t) →
      ∀ y ∈ a :: t, y ∈ defaultsKeys g := by
  intro t
  induction t with
  | nil =>
    intro a b _ hedge y hy
    simp only [lastOf] at hedge
    rcases List.mem_singleton.mp hy with rfl
    exact mem_keys_of_edge g y b hedge
  | cons c t' ih =>
    intro a b hchain hedge y hy
    simp only [isChain, Bool.and_eq_true] at hchain
    obtain ⟨hac, hct⟩ := hchain
    rcases List.mem_cons.mp hy with hya | hyt
    · subst hya
      exact mem_keys_of_edge g y c ((any_eq_mem _ _).mp hac)
    · exact ih c b hct (by simpa [lastOf] using hedge) y hyt

lemma cycle_length_le (g : List (String × List String)) (l : List String)
    (hnd : l.Nodup) (hcyc : isCycle g l = true) : l.length ≤ g.length := by
  cases l with
  | nil => simp [isCycle] at hcyc
  | cons x rest =>
    simp only [isCycle, Bool.and_eq_true] at hcyc
    obtain ⟨hchain, hwrap⟩ := hcyc
    have hsub : ∀ y ∈ x :: rest, y ∈ defaultsKeys g :=
      chain_subset_keys g rest x x hchain ((any_eq_mem _ _).mp hwrap)
    have hlen : (x :: rest).length ≤ (defaultsKeys g).length := by
      calc (x :: rest).length = (x :: rest).toFinset.card :=
            (List.toFinset_card_of_nodup hnd).symm
        _ ≤ (defaultsKeys g).toFinset.card := Finset.card_le_card (fun y hy => by
            rw [List.mem_toFinset] at hy ⊢; exact hsub y hy)
        _ ≤ (defaultsKeys g).length := List.toFinset_card_le _
    simpa [defaultsKeys] using hlen

lemma cycle_reach_pair (g : List (String × List String)) (x : String)
    (rest : List String) (hcyc : isCycle g (x :: rest) = true)
    (hnd : (x :: rest).Nodup) :
    ∀ u ∈ x :: rest, ∀ v ∈ x :: rest, reachN g (2 * g.length) u v = true := by
  have hcyc' := hcyc
  simp only [isCycle, Bool.and_eq_true] at hcyc'
  obtain ⟨hchain, hwrap⟩ := hcyc'
  have hlen : rest.length + 1 ≤ g.length := by
    simpa using cycle_length_le g (x :: rest) hnd hcyc
  have hxx : reachN g (rest.length + 1) x x = true :=
    chain_reach g rest x x hchain ((any_eq_mem _ _).mp hwrap)
  have hxv : ∀ v ∈ x :: rest, ∃ f, f ≤ rest.length + 1 ∧ reachN g f x v = true := by
    intro v hv
    rcases List.mem_cons.mp hv with hvx | hvrest
    · subst hvx
      exact ⟨rest.length + 1, le_rfl, hxx⟩
    · obtain ⟨f, hf, hr⟩ := chain_reach_mem g rest x v hchain hvrest
      exact ⟨f, by omega, hr⟩
  have hux : ∀ u ∈ x :: rest, ∃ f, f ≤ rest.length + 1 ∧ reachN g f u x = true := by
    intro u hu
    obtain ⟨l1, l2, hsplit⟩ := List.append_of_mem hu
    have hsuffix : isChain g (u :: l2) = true :=
      chain_append_right g l1 (u :: l2) (hsplit ▸ hchain)
    have hlast : lastOf x rest = lastOf u l2 := by
      cases l1 with
      | nil =>
        simp only [List.nil_append] at hsplit
        injection hsplit with hx hrest
        subst hx; subst hrest
        rfl
      | cons c l1' =>
        simp only [List.cons_append] at hsplit
        injection hsplit with hx hrest
        subst hx; subst hrest
        exact lastOf_append l1' x u l2
    have hedge : x ∈ edgesOf g (lastOf u l2) := hlast ▸ (any_eq_mem _ _).mp hwrap
    have hlenl2 : l2.length ≤ rest.length := by
      have : (x :: rest).length = (l1 ++ u :: l2).length := by rw [hsplit]
      simp at this
      omega
    exact ⟨l2.length + 1, by omega, chain_reach g l2 u x hsuffix hedge⟩
  intro u hu v hv
  obtain ⟨f1, hf1, h1⟩ := hux u hu
  obtain ⟨f2, hf2, h2⟩ := hxv v hv
  exact reachN_mono g (f1 + f2) (2 * g.length) u v (by omega)
    (reachN_trans g f1 f2 u x v h1 h2)

/-- C6: every defaults graph containing a cycle is rejected by the cycle
check that runs before any property merging — `applyDefaults` returns the
user-facing error, whose payload carries no property trees, so no module's
properties are modified — the detection succeeds, the reported list is
nonempty, every reported module really lies on a defaults cycle, and every
module of a cycle through the detected root is reported. -/
theorem defaults_cycle_rejected (g : List (String × List String))
    (props : String → PropTree) (l : List String)
    (hnd : l.Nodup) (hcyc : isCycle g l = true) :
    ∃ root cyc, findCycleRoot g = some root ∧
      applyDefaults g props = Except.error cyc ∧
      cyc ≠ [] ∧
      (∀ x ∈ cyc, ∃ f, reachN g f x x = true) ∧
      (root ∈ l → ∀ x ∈ l, x ∈ cyc) := by
  cases l with
  | nil => simp [isCycle] at hcyc
  | cons x rest =>
    have hcyc' := hcyc
    simp only [isCycle, Bool.and_eq_true] at hcyc'
    obtain ⟨hchain, hwrap⟩ := hcyc'
    have hlen : rest.length + 1 ≤ g.length := by
      simpa using cycle_length_le g (x :: rest) hnd hcyc
    have hxx : reachN g (rest.length + 1) x x = true :=
      chain_reach g rest x x hchain ((any_eq_mem _ _).mp hwrap)
    have hxxN : reachN g (2 * g.length) x x = true :=
      reachN_mono g _ _ x x (by omega) hxx
    have hxkeys : x ∈ defaultsKeys g :=
      chain_subset_keys g rest x x hchain ((any_eq_mem _ _).mp hwrap) x
        (List.mem_cons_self _ _)
    have hfound : (findCycleRoot g).isSome := by
      rw [findCycleRoot, List.find?_isSome]
      exact ⟨x, hxkeys, hxxN⟩
    obtain ⟨root, hroot⟩ := Option.isSome_iff_exists.mp hfound
    rw [findCycleRoot] at hroot
    have hrootpred0 := List.find?_some hroot
    have hrootpred : reachN g (2 * g.length) root root = true := by simpa using hrootpred0
    have hrootkeys : root ∈ defaultsKeys g := List.mem_of_find?_eq_some hroot
    refine ⟨root, cycleMembers g root, by rw [findCycleRoot]; exact hroot, ?_, ?_, ?_, ?_⟩
    · simp only [applyDefaults, findCycleRoot, hroot]
    · have hmem : root ∈ cycleMembers g root := by
        rw [cycleMembers, List.mem_filter]
        exact ⟨hrootkeys, by rw [Bool.and_eq_true]; exact ⟨hrootpred, hrootpred⟩⟩
      intro hempty
      rw [hempty] at hmem
      simp at hmem
    · intro y hy
      rw [cycleMembers, List.mem_filter, Bool.and_eq_true] at hy
      obtain ⟨hykeys, h1, h2⟩ := hy
      exact ⟨2 * g.length + 2 * g.length, reachN_trans g _ _ y root y h2 h1⟩
    · intro hrootl y hyl
      rw [cycleMembers, List.mem_filter, Bool.and_eq_true]
      have hpair := cycle_reach_pair g x rest hcyc hnd
      exact ⟨chain_subset_keys g rest x x hchain ((any_eq_mem _ _).mp hwrap) y hyl,
        hpair root hrootl y hyl, hpair y hyl root hrootl⟩

/-- Witness for C6: the `D1 ↔ D2` defaults cycle of the spec's example is
detected and rejected with both module names reported and no merged
properties produced. -/
theorem defaults_cycle_rejected_witness :
    (∃ root cyc, findCycleRoot defaultsCycleExample = some root ∧
      applyDefaults defaultsCycleExample (fun _ => PropTree.node []) = Except.error cyc ∧
      cyc ≠ [] ∧
      (∀ x ∈ cyc, ∃ f, reachN defaultsCycleExample f x x = true) ∧
      (root ∈ ["D1", "D2"] → ∀ x ∈ ["D1", "D2"], x ∈ cyc)) ∧
    applyDefaults defaultsCycleExample (fun _ => PropTree.node []) =
      Except.error ["D1", "D2"] :=
  ⟨defaults_cycle_rejected defaultsCycleExample (fun _ => PropTree.node [])
    ["D1", "D2"] (by decide) (by decide), rfl⟩

lemma mem_concatMap {α β : Type} (f : α → List β) :
    ∀ (l : List α) (x : β), x ∈ concatMap f l ↔ ∃ a ∈ l, x ∈ f a := by
  intro l x
  induction l with
  | nil => simp [concatMap]
  | cons a rest ih => simp [concatMap, ih]

lemma lookupAxis_append_self :
    ∀ (vs : List (String × String)) (axis val : String),
      lookupAxis axis vs = none → lookupAxis axis (vs ++ [(axis, val)]) = some val := by
  intro vs axis val
  induction vs with
  | nil => intro _; simp [lookupAxis]
  | cons e rest ih =>
    obtain ⟨a, v⟩ := e
    intro h
    simp only [lookupAxis] at h ⊢
    by_cases ha : a = axis
    · rw [if_pos ha] at h; exact absurd h (by simp)
    · rw [if_neg ha] at h ⊢
      exact ih h

lemma lookupAxis_append_other :
    ∀ (vs : List (String × String)) (axis axis' val : String), ¬ axis = axis' →
      lookupAxis axis' (vs ++ [(axis, val)]) = lookupAxis axis' vs := by
  intro vs axis axis' val h
  induction vs with
  | nil => simp [lookupAxis, h]
  | cons e rest ih =>
    obtain ⟨a, v⟩ := e
    simp only [lookupAxis]
    by_cases ha : a = axis'
    · rw [if_pos ha, if_pos ha]
    · rw [if_neg ha, if_neg ha]
      exact ih

lemma axisValue_withAxis_self (v : Variant) (axis val : String)
    (h : v.axisValue axis = none) : (v.withAxis axis val).axisValue axis = some val :=
  lookupAxis_append_self v.variations axis val h

lemma axisValue_withAxis_other (v : Variant) (axis axis' val : String)
    (h : ¬ axis = axis') :
    (v.withAxis axis val).axisValue axis' = v.axisValue axis' :=
  lookupAxis_append_other v.variations axis axis' val h

lemma agree_withAxis_both (p c : Variant) (axis u : String)
    (hp : p.axisValue axis = none) (hc : c.axisValue axis = none)
    (h : agreeOnSharedAxes p c) :
    agreeOnSharedAxes (p.withAxis axis u) (c.withAxis axis u) := by
  intro axis' a b h1 h2
  by_cases hax : axis = axis'
  · subst hax
    rw [axisValue_withAxis_self p axis u hp] at h1
    rw [axisValue_withAxis_self c axis u hc] at h2
    injection h1 with h1'
    injection h2 with h2'
    rw [← h1', ← h2']
  · rw [axisValue_withAxis_other p axis axis' u hax] at h1
    rw [axisValue_withAxis_other c axis axis' u hax] at h2
    exact h axis' a b h1 h2

lemma agree_withAxis_from (p c : Variant) (axis u : String)
    (hp : p.axisValue axis = none)
    (hc : c.axisValue axis = some u ∨ c.axisValue axis = none)
    (h : agreeOnSharedAxes p c) :
    agreeOnSharedAxes (p.withAxis axis u) c := by
  intro axis' a b h1 h2
  by_cases hax : axis = axis'
  · subst hax
    rw [axisValue_withAxis_self p axis u hp] at h1
    injection h1 with h1'
    rcases hc with hc | hc
    · rw [hc] at h2
      injection h2 with h2'
      rw [← h1', ← h2']
    · rw [hc] at h2; exact absurd h2 (by simp)
  · rw [axisValue_withAxis_other p axis axis' u hax] at h1
    exact h axis' a b h1 h2

lemma agree_withAxis_to (p c : Variant) (axis u : String)
    (hc : c.axisValue axis = none)
    (hp : p.axisValue axis = some u ∨ p.axisValue axis = none)
    (h : agreeOnSharedAxes p c) :
    agreeOnSharedAxes p (c.withAxis axis u) := by
  intro axis' a b h1 h2
  by_cases hax : axis = axis'
  · subst hax
    rw [axisValue_withAxis_self c axis u hc] at h2
    injection h2 with h2'
    rcases hp with hp | hp
    · rw [hp] at h1
      injection h1 with h1'
      rw [← h1', ← h2']
    · rw [hp] at h1; exact absurd h1 (by simp)
  · rw [axisValue_withAxis_other c axis axis' u hax] at h2
    exact h axis' a b h1 h2

/-- C5: splitting a module along a fresh axis preserves the invariant that
every dependency edge connects variants agreeing on every axis resolved on
both endpoints — so the invariant holds at every point of a pipeline built
from such splits — and in the spec's scenario (P depends on C; C is split
into arm/x86, then P is split into arm/x86) the final edge set is exactly
P_arm→C_arm and P_x86→C_x86, with no cross pairing. -/
theorem variant_split_edges (g : ModuleGraph) (m axis : String) (values : List String) :
    (edgesAgree g → axisFreshFor g m axis →
        edgesAgree (splitModule g m axis values)) ∧
    ((splitModule (splitModule splitGraphExample "C" "arch" ["arm", "x86"])
        "P" "arch" ["arm", "x86"]).edges =
      [⟨⟨"P", [("arch", "arm")]⟩, ⟨"C", [("arch", "arm")]⟩, "dep"⟩,
       ⟨⟨"P", [("arch", "x86")]⟩, ⟨"C", [("arch", "x86")]⟩, "dep"⟩]) ∧
    ((splitModule (splitModule splitGraphExample "C" "arch" ["arm", "x86"])
        "P" "arch" ["arm", "x86"]).variants =
      [⟨"P", [("arch", "arm")]⟩, ⟨"P", [("arch", "x86")]⟩,
       ⟨"C", [("arch", "arm")]⟩, ⟨"C", [("arch", "x86")]⟩]) := by
  refine ⟨?_, by decide, by decide⟩
  intro hagree hfresh e' he'
  simp only [splitModule] at he'
  rw [mem_concatMap] at he'
  obtain ⟨e, he, hmem⟩ := he'
  have hag := hagree e he
  obtain ⟨hfrF, hfrT⟩ := hfresh e he
  by_cases hf : e.fromV.moduleName = m
  · by_cases ht : e.toV.moduleName = m
    · simp only [rewriteEdge, if_pos hf, if_pos ht, List.mem_map] at hmem
      obtain ⟨val, _, rfl⟩ := hmem
      exact agree_withAxis_both e.fromV e.toV axis val (hfrF hf) (hfrT ht) hag
    · simp only [rewriteEdge, if_pos hf, if_neg ht] at hmem
      cases hA : e.toV.axisValue axis with
      | some a0 =>
        simp only [hA] at hmem
        by_cases hin : a0 ∈ values
        · simp only [if_pos hin, List.mem_singleton] at hmem
          subst hmem
          exact agree_withAxis_from e.fromV e.toV axis a0 (hfrF hf) (Or.inl hA) hag
        · simp [hin] at hmem
      | none =>
        simp only [hA, List.mem_map] at hmem
        obtain ⟨val, _, rfl⟩ := hmem
        exact agree_withAxis_from e.fromV e.toV axis val (hfrF hf) (Or.inr hA) hag
  · by_cases ht : e.toV.moduleName = m
    · simp only [rewriteEdge, if_neg hf, if_pos ht] at hmem
      cases hA : e.fromV.axisValue axis with
      | some a0 =>
        simp only [hA] at hmem
        by_cases hin : a0 ∈ values
        · simp only [if_pos hin, List.mem_singleton] at hmem
          subst hmem
          exact agree_withAxis_to e.fromV e.toV axis a0 (hfrT ht) (Or.inl hA) hag
        · simp [hin] at hmem
      | none =>
        simp only [hA, List.mem_map] at hmem
        obtain ⟨val, _, rfl⟩ := hmem
        exact agree_withAxis_to e.fromV e.toV axis val (hfrT ht) (Or.inr hA) hag
    · simp only [rewriteEdge, if_neg hf, if_neg ht, List.mem_singleton] at hmem
      subst hmem
      exact hag

/-- Witness for C5: the invariant-preservation part applied to the concrete
split of `C` in the P→C graph, whose single edge trivially satisfies the
invariant and whose endpoints are fresh on the `arch` axis. -/
theorem variant_split_edges_witness :
    edgesAgree (splitModule splitGraphExample "C" "arch" ["arm", "x86"]) := by
  apply (variant_split_edges splitGraphExample "C" "arch" ["arm", "x86"]).1
  · intro e he axis a b h1 h2
    simp only [splitGraphExample, List.mem_singleton] at he
    subst he
    simp [Variant.axisValue, lookupAxis] at h1
  · intro e he
    simp only [splitGraphExample, List.mem_singleton] at he
    subst he
    constructor
    · intro h; exact absurd h (by decide)
    · intro _; rfl

lemma denote_unfold {V : Type} (G : StageGraph) (f : String → V → List V → V)
    (st0 : String → V) (n : String) :
    denote G f st0 n = f n (st0 n) ((G.deps n).map (denote G f st0)) := by
  rw [denote]
  congr 1
  simp

/-- Running a valid schedule from a state holding the denotation on every
already-processed node yields the denotation on every node processed so
far, leaving unprocessed nodes at their initial values. -/
lemma runStage_eq_denote {V : Type} (G : StageGraph) (f : String → V → List V → V)
    (st0 : String → V) :
    ∀ (sched processed : List String) (st : String → V),
      ValidSched G processed sched →
      (∀ m, st m = if m ∈ processed then denote G f st0 m else st0 m) →
      ∀ m, runStage G f sched st m =
        if m ∈ processed ∨ m ∈ sched then denote G f st0 m else st0 m := by
  intro sched
  induction sched with
  | nil =>
    intro processed st _ hinv m
    simp only [runStage]
    rw [hinv m]
    by_cases hm : m ∈ processed
    · simp [hm]
    · simp [hm]
  | cons n rest ih =>
    intro processed st hvalid hinv m
    cases hvalid with
    | cons _ _ _ hdeps hnotp hvalid' =>
      simp only [runStage]
      have hinv' : ∀ m', stepNode G f n st m' =
          if m' ∈ n :: processed then denote G f st0 m' else st0 m' := by
        intro m'
        rw [stepNode]
        by_cases hm' : m' = n
        · subst hm'
          rw [if_pos rfl, if_pos (List.mem_cons_self _ _)]
          have hstn : st m' = st0 m' := by rw [hinv m', if_neg hnotp]
          have hdepsval : (G.deps m').map st = (G.deps m').map (denote G f st0) := by
            apply List.map_congr_left
            intro d hd
            rw [hinv d, if_pos (hdeps d hd)]
          rw [hstn, hdepsval]
          exact (denote_unfold G f st0 m').symm
        · rw [if_neg hm', hinv m']
          by_cases hmp : m' ∈ processed
          · rw [if_pos hmp, if_pos (List.mem_cons_of_mem _ hmp)]
          · rw [if_neg hmp, if_neg (by simp [hm', hmp])]
      have hrec := ih (n :: processed) (stepNode G f n st) hvalid' hinv' m
      rw [hrec]
      have hiff : (m ∈ n :: processed ∨ m ∈ rest) ↔ (m ∈ processed ∨ m ∈ n :: rest) := by
        simp only [List.mem_cons]
        tauto
      by_cases hc : m ∈ n :: processed ∨ m ∈ rest
      · rw [if_pos hc, if_pos (hiff.mp hc)]
      · rw [if_neg hc, if_neg (fun hh => hc (hiff.mpr hh))]

/-- C7: the resolved result of the full mutator pipeline — each node's value
standing for its variants, edges and merged properties — is identical
across any two runs whose per-stage worker schedules are valid
linearizations of the stage discipline over the graph's nodes; the output
does not depend on worker scheduling order or on the iteration order that
produced either schedule. -/
theorem pipeline_schedule_deterministic {V : Type} (G : StageGraph) :
    ∀ (fs : List (String → V → List V → V)) (st0 : String → V)
      (ss1 ss2 : List (List String)),
      ss1.length = fs.length → ss2.length = fs.length →
      (∀ s ∈ ss1, ValidSched G [] s ∧ ∀ m, m ∈ s ↔ m ∈ G.nodes) →
      (∀ s ∈ ss2, ValidSched G [] s ∧ ∀ m, m ∈ s ↔ m ∈ G.nodes) →
      ∀ m, runPipeline G fs ss1 st0 m = runPipeline G fs ss2 st0 m := by
  intro fs
  induction fs with
  | nil =>
    intro st0 ss1 ss2 hl1 hl2 _ _ m
    cases ss1 <;> cases ss2 <;> rfl
  | cons f fs' ih =>
    intro st0 ss1 ss2 hl1 hl2 hv1 hv2 m
    cases ss1 with
    | nil => simp at hl1
    | cons s1 ss1' =>
      cases ss2 with
      | nil => simp at hl2
      | cons s2 ss2' =>
        obtain ⟨hvs1, hp1⟩ := hv1 s1 (List.mem_cons_self _ _)
        obtain ⟨hvs2, hp2⟩ := hv2 s2 (List.mem_cons_self _ _)
        have hstage : runStage G f s1 st0 = runStage G f s2 st0 := by
          funext m'
          rw [runStage_eq_denote G f st0 s1 [] st0 hvs1 (by intro m''; simp),
            runStage_eq_denote G f st0 s2 [] st0 hvs2 (by intro m''; simp)]
          have : (m' ∈ ([] : List String) ∨ m' ∈ s1) ↔
              (m' ∈ ([] : List String) ∨ m' ∈ s2) := by
            simp [hp1 m', hp2 m']
          by_cases hc : m' ∈ ([] : List String) ∨ m' ∈ s1
          · rw [if_pos hc, if_pos (this.mp hc)]
          · rw [if_neg hc, if_neg (fun hh => hc (this.mpr hh))]
        simp only [runPipeline]
        rw [hstage]
        exact ih (runStage G f s2 st0) ss1' ss2' (by simpa using hl1) (by simpa using hl2)
          (fun s hs => hv1 s (List.mem_cons_of_mem _ hs))
          (fun s hs => hv2 s (List.mem_cons_of_mem _ hs)) m

/-- Witness for C7: on the two-node stage graph with no dependencies, one
stage run under the schedules `A,B` and `B,A` produces the same value at
each node. -/
theorem pipeline_schedule_deterministic_witness :
    runPipeline stageGraphExample [fun _ v ds => v + ds.length + 1]
        [["A", "B"]] (fun _ => 0) "A" =
      runPipeline stageGraphExample [fun _ v ds => v + ds.length + 1]
        [["B", "A"]] (fun _ => 0) "A" := by
  have hvAB : ValidSched stageGraphExample [] ["A", "B"] :=
    .cons _ _ _ (by intro d hd; simp [stageGraphExample] at hd) (by simp)
      (.cons _ _ _ (by intro d hd; simp [stageGraphExample] at hd) (by simp)
        (.nil _))
  have hvBA : ValidSched stageGraphExample [] ["B", "A"] :=
    .cons _ _ _ (by intro d hd; simp [stageGraphExample] at hd) (by simp)
      (.cons _ _ _ (by intro d hd; simp [stageGraphExample] at hd) (by simp)
        (.nil _))
  exact pipeline_schedule_deterministic stageGraphExample
    [fun _ v ds => v + ds.length + 1] (fun _ => 0) [["A", "B"]] [["B", "A"]]
    rfl rfl
    (by intro s hs
        simp only [List.mem_singleton] at hs
        subst hs
        exact ⟨hvAB, by intro m; simp [stageGraphExample]⟩)
    (by intro s hs
        simp only [List.mem_singleton] at hs
        subst hs
        refine ⟨hvBA, ?_⟩
        intro m
        simp [stageGraphExample, or_comm])
    "A"

end Soong
